import Mathlib

/-!
Verification of the `ws` package of macro-analyst (Hub, Client writer, Ingestor)
against its specification. The Go code is shallowly embedded: the Hub registry
(a `map[*Client]bool`) becomes a `Finset` of client identities for membership
operations and a list of clients carrying their buffered send queues for the
fan-out pass; channels become bounded lists; `float64` values become rationals;
fallible operations return `Except`/`Option`.
-/

namespace ws

/-- Embeds `Client` (client.go): one WebSocket connection with its buffered
`Send` channel, modelled as the queued messages plus the channel capacity. -/
structure Client where
  id : Nat
  Send : List String
  cap : Nat
deriving DecidableEq

/-- Embeds `Hub.registerClient` (hub.go): `h.clients[client] = true` on a
`map[*Client]bool`, i.e. insertion into the set of registered clients. -/
def registerClient (clients : Finset Nat) (client : Nat) : Finset Nat :=
  insert client clients

/-- Embeds `Hub.GetClientCount` (hub.go): `len(h.clients)`. -/
def GetClientCount (clients : Finset Nat) : Nat :=
  clients.card

/-- Embeds `Hub.broadcastMessage` (hub.go): for each registered client a
non-blocking send (`select` with `default`) into `client.Send`; a client whose
queue is full is left in place and its unregistration is scheduled
asynchronously (`go func(c *Client) { h.unregister <- c }`). Returns the
clients after the pass together with the ids scheduled for unregistration. -/
def broadcastMessage : List Client → String → List Client × List Nat
  | [], _ => ([], [])
  | c :: rest, message =>
    let r := broadcastMessage rest message
    if c.Send.length < c.cap then
      ({ c with Send := c.Send ++ [message] } :: r.1, r.2)
    else
      (c :: r.1, c.id :: r.2)

/-- Embeds `PriceUpdate` (ingestor.go): one immutable price snapshot.
`float64` fields become rationals, `int64` becomes an integer. -/
structure PriceUpdate where
  Symbol : String
  Price : Rat
  Change : Rat
  ChangePercent : Rat
  Volume : Int
  Timestamp : String
deriving DecidableEq

/-- Embeds `MultiUpdate` (ingestor.go): the tagged pending batch. -/
structure MultiUpdate where
  type : String
  Data : List PriceUpdate
deriving DecidableEq

/-- Embeds `Ingestor.updateOrAppendPrice` (ingestor.go): scan the batch for an
entry with the same symbol, replace the first one found in place
(`multiUpdate.Data[idx] = priceUpdate`), else append at the end. -/
def updateOrAppendPrice : List PriceUpdate → PriceUpdate → List PriceUpdate
  | [], p => [p]
  | q :: rest, p =>
    if q.Symbol = p.Symbol then p :: rest else q :: updateOrAppendPrice rest p

/-- Embeds `Ingestor.queuePriceUpdate` (ingestor.go): a `nil` pending batch is
replaced by a fresh one holding just this update, otherwise the update is
merged into the existing batch. -/
def queuePriceUpdate : Option MultiUpdate → PriceUpdate → MultiUpdate
  | none, p => ⟨"multi_update", [p]⟩
  | some m, p => ⟨m.type, updateOrAppendPrice m.Data p⟩

/-- Embeds `Ingestor.sendToHub` (ingestor.go): a non-blocking send
(`select` with `default`) of the serialized batch into the Hub's buffered
`broadcast` channel, modelled as a bounded queue with its capacity. -/
def sendToHub (queue : List String) (cap : Nat) (data : String) : List String :=
  if queue.length < cap then queue ++ [data] else queue

/-- Embeds `Ingestor.broadcastPendingUpdates` (ingestor.go): a `nil` or empty
pending batch is left alone; otherwise the batch is serialized (`json.Marshal`
modelled as an oracle that may fail) — on failure the function returns early,
on success the bytes are handed to `sendToHub` and the pending batch pointer
is reset to `nil`. Returns the new pending batch and the hub queue. -/
def broadcastPendingUpdates (pendingUpdate : Option MultiUpdate)
    (marshal : MultiUpdate → Option String) (queue : List String) (cap : Nat) :
    Option MultiUpdate × List String :=
  match pendingUpdate with
  | none => (none, queue)
  | some m =>
    if m.Data.length = 0 then (some m, queue)
    else
      match marshal m with
      | none => (some m, queue)
      | some jsonData => (none, sendToHub queue cap jsonData)

/-- Embeds a Go done-channel handle as tracked in `doneChannels`: only
whether it has been closed is observable here. -/
structure DoneChannel where
  closed : Bool
deriving DecidableEq

/-- Embeds Go's `close(ch)`: closing an already-closed channel panics
(modelled as `Except.error`), otherwise the channel is marked closed. -/
def closeChannel (c : DoneChannel) : Except String DoneChannel :=
  if c.closed then Except.error "close of closed channel"
  else Except.ok { closed := true }

/-- Closes a list of channels in order, propagating the first panic. -/
def closeAll : List DoneChannel → Except String (List DoneChannel)
  | [] => Except.ok []
  | c :: rest => do
    let c' ← closeChannel c
    let rest' ← closeAll rest
    pure (c' :: rest')

/-- Ingestor lifecycle state relevant to `Stop`: the cancellation flag of the
`context.Context` and the `doneChannels` slice of upstream handles. -/
structure IngestorState where
  cancelled : Bool
  doneChannels : List DoneChannel
deriving DecidableEq

/-- Embeds `Ingestor.Stop` (ingestor.go): `i.cancel()` (idempotent — a
context's cancel function may be called repeatedly) followed by
`close(doneC)` for every tracked upstream handle, with Go's panic on a
double close surfaced as `Except.error`. -/
def Stop (s : IngestorState) : Except String IngestorState :=
  match closeAll s.doneChannels with
  | Except.error e => Except.error e
  | Except.ok chans => Except.ok { cancelled := true, doneChannels := chans }

/-- A frame written to the WebSocket connection by the client writer:
either a text data frame (`websocket.TextMessage`) or the terminal close
frame (`websocket.CloseMessage`). -/
inductive Frame where
  | text (message : String)
  | close
deriving DecidableEq

/-- Embeds the loop body of `Client.WritePump` (client.go) from write index
`n` on. The `Send` channel is modelled as the list of messages it will yield
before being closed by the Hub; `writeOk k` tells whether the `k`-th write to
the connection succeeds. On a closed channel the writer attempts one close
frame and exits; on a failed data write it exits at once. The result is the
sequence of frames handed to `Conn.WriteMessage`. -/
def writePumpFrom : List String → (Nat → Bool) → Nat → List Frame
  | [], _, _ => [Frame.close]
  | message :: rest, writeOk, n =>
    if writeOk n then Frame.text message :: writePumpFrom rest writeOk (n + 1)
    else [Frame.text message]

/-- Embeds `Client.WritePump` (client.go): the writer's whole frame trace. -/
def WritePump (messages : List String) (writeOk : Nat → Bool) : List Frame :=
  writePumpFrom messages writeOk 0

/-- Embeds `Symbol` (ingestor.go): one watch-list entry of the Symbol Cache.
The string fields mirror the Go struct exactly; `LastUpdateAt` becomes an
abstract clock value. -/
structure Symbol where
  Name : String
  LastPrice : String
  LastChange : String
  LastVolume : String
  LastUpdateAt : Nat
deriving DecidableEq

/-- Embeds `binance.WsMarketStatEvent`, restricted to the fields the ingestor
reads; all of them are string-encoded in the upstream wire format. -/
structure WsMarketStatEvent where
  Symbol : String
  LastPrice : String
  PriceChange : String
  PriceChangePercent : String
  BaseVolume : String
deriving DecidableEq

/-- Embeds `Ingestor.findSymbol` (ingestor.go): first watch-list entry with
the given name, or `none`. -/
def findSymbol : List Symbol → String → Option Symbol
  | [], _ => none
  | s :: rest, name => if s.Name = name then some s else findSymbol rest name

/-- Embeds `Ingestor.updateSymbolData` (ingestor.go): if the event's symbol is
in the watch-list, the first matching cache entry is overwritten in place —
`LastPrice` from the event's last price, `LastChange` from the event's
`PriceChangePercent`, `LastVolume` from the base volume, `LastUpdateAt` set to
the current time; otherwise nothing happens. -/
def updateSymbolData : List Symbol → WsMarketStatEvent → Nat → List Symbol
  | [], _, _ => []
  | s :: rest, event, now =>
    if s.Name = event.Symbol then
      { s with LastPrice := event.LastPrice, LastChange := event.PriceChangePercent,
               LastVolume := event.BaseVolume, LastUpdateAt := now } :: rest
    else s :: updateSymbolData rest event now

/-- Embeds the watch-list as built by `NewIngestor`/`AddSymbol`: entries start
with empty cached strings and a zero timestamp. -/
def initSymbols (names : List String) : List Symbol :=
  names.map fun n => ⟨n, "", "", "", 0⟩

/-- Runs the event-handling path (`updateSymbolData`) over a whole sequence of
upstream events. -/
def applyEvents (symbols : List Symbol) (events : List WsMarketStatEvent)
    (now : Nat) : List Symbol :=
  events.foldl (fun s e => updateSymbolData s e now) symbols

/-- The three outcomes of `Ingestor.GetCurrentPrice` (ingestor.go): the cached
price string, the `no price data yet for: ...` error, or the
`symbol not found: ...` error. -/
inductive PriceResult where
  | price (value : String)
  | noDataYet (name : String)
  | notFound (name : String)
deriving DecidableEq

/-- Embeds `Ingestor.GetCurrentPrice` (ingestor.go): look the symbol up in the
watch-list; fail `notFound` when absent, fail `noDataYet` when its cached
`LastPrice` is still the empty string, else return the cached price. -/
def GetCurrentPrice (symbols : List Symbol) (name : String) : PriceResult :=
  match findSymbol symbols name with
  | none => PriceResult.notFound name
  | some s =>
    if s.LastPrice = "" then PriceResult.noDataYet name else PriceResult.price s.LastPrice

/-- Truncation toward zero of a rational, Go's `int64(f)` conversion applied
to the decimal value. -/
def ratTrunc (q : Rat) : Int :=
  Int.tdiv q.num q.den

/-- Embeds `Ingestor.convertEventToPriceUpdate` (ingestor.go):
`strconv.ParseFloat` is modelled as an oracle returning `none` on a parse
failure; each failed field defaults to zero (`ParseFloat` returns 0 alongside
the error, which the code ignores), the base volume is truncated to an
integer by the `int64` conversion, and the symbol and formatted clock string
are carried over. -/
def convertEventToPriceUpdate (parseFloat : String → Option Rat) (now : String)
    (event : WsMarketStatEvent) : PriceUpdate :=
  { Symbol := event.Symbol
    Price := (parseFloat event.LastPrice).getD 0
    Change := (parseFloat event.PriceChange).getD 0
    ChangePercent := (parseFloat event.PriceChangePercent).getD 0
    Volume := ratTrunc ((parseFloat event.BaseVolume).getD 0)
    Timestamp := now }

/-- A concrete parse oracle used in witnesses: accepts only the string
`"ok"`, mapping it to the non-integral value 5/2. -/
def parseProbe : String → Option Rat :=
  fun s => if s = "ok" then some (5 / 2) else none

/-- A concrete upstream event used in witnesses: its price change fails to
parse under `parseProbe`, every other numeric field succeeds. -/
def eventProbe : WsMarketStatEvent :=
  ⟨"A", "ok", "bad", "ok", "ok"⟩

end ws

namespace ws

theorem broadcastMessage_eq (clients : List Client) (message : String) :
    broadcastMessage clients message =
      (clients.map (fun c =>
          if c.Send.length < c.cap then { c with Send := c.Send ++ [message] } else c),
       (clients.filter (fun c => !(c.Send.length < c.cap))).map Client.id) := by
  induction clients with
  | nil => rfl
  | cons c rest ih =>
    simp only [broadcastMessage, ih, List.map_cons, List.filter_cons]
    by_cases h : c.Send.length < c.cap <;> simp [h]

theorem updateOrAppendPrice_of_mem (data : List PriceUpdate) (p : PriceUpdate)
    (h : p.Symbol ∈ data.map PriceUpdate.Symbol) :
    ∃ i, ∃ hi : i < data.length, (data.get ⟨i, hi⟩).Symbol = p.Symbol
      ∧ updateOrAppendPrice data p = data.set i p := by
  induction data with
  | nil => simp at h
  | cons q rest ih =>
    by_cases hq : q.Symbol = p.Symbol
    · exact ⟨0, by simp, hq, by simp [updateOrAppendPrice, hq]⟩
    · have hmem : p.Symbol ∈ rest.map PriceUpdate.Symbol := by
        simp only [List.map_cons, List.mem_cons] at h
        rcases h with h | h
        · exact absurd h.symm hq
        · exact h
      obtain ⟨i, hi, hsym, heq⟩ := ih hmem
      exact ⟨i + 1, by simpa using hi, hsym,
        by simp [updateOrAppendPrice, hq, heq]⟩

theorem updateOrAppendPrice_of_not_mem (data : List PriceUpdate) (p : PriceUpdate)
    (h : p.Symbol ∉ data.map PriceUpdate.Symbol) :
    updateOrAppendPrice data p = data ++ [p] := by
  induction data with
  | nil => rfl
  | cons q rest ih =>
    simp only [List.map_cons, List.mem_cons, not_or] at h
    have h1 : ¬ q.Symbol = p.Symbol := fun hq => h.1 hq.symm
    simp [updateOrAppendPrice, h1, ih h.2]

theorem updateOrAppendPrice_map_symbol (data : List PriceUpdate) (p : PriceUpdate) :
    (updateOrAppendPrice data p).map PriceUpdate.Symbol =
      if p.Symbol ∈ data.map PriceUpdate.Symbol then data.map PriceUpdate.Symbol
      else data.map PriceUpdate.Symbol ++ [p.Symbol] := by
  induction data with
  | nil => simp [updateOrAppendPrice]
  | cons q rest ih =>
    by_cases hq : q.Symbol = p.Symbol
    · simp [updateOrAppendPrice, hq]
    · have : ¬ p.Symbol = q.Symbol := fun h => hq h.symm
      by_cases hmem : p.Symbol ∈ rest.map PriceUpdate.Symbol <;>
        simp [updateOrAppendPrice, hq, this, hmem, ih]

theorem updateOrAppendPrice_nodup (data : List PriceUpdate) (p : PriceUpdate)
    (h : (data.map PriceUpdate.Symbol).Nodup) :
    ((updateOrAppendPrice data p).map PriceUpdate.Symbol).Nodup := by
  rw [updateOrAppendPrice_map_symbol]
  by_cases hmem : p.Symbol ∈ data.map PriceUpdate.Symbol <;>
    simp [hmem, List.nodup_append, h]

theorem updateOrAppendPrice_filter (data : List PriceUpdate) (p : PriceUpdate)
    (h : (data.map PriceUpdate.Symbol).Nodup) :
    (updateOrAppendPrice data p).filter (fun q => q.Symbol = p.Symbol) = [p] := by
  induction data with
  | nil => simp [updateOrAppendPrice]
  | cons q rest ih =>
    simp only [List.map_cons, List.nodup_cons] at h
    by_cases hq : q.Symbol = p.Symbol
    · have : rest.filter (fun r => r.Symbol = p.Symbol) = [] := by
        apply List.filter_eq_nil_iff.mpr
        intro r hr hsym
        exact h.1 (hq ▸ (by simpa using hsym) ▸ List.mem_map_of_mem PriceUpdate.Symbol hr)
      simp [updateOrAppendPrice, hq, this]
    · simp [updateOrAppendPrice, hq, ih h.2]

theorem writePumpFrom_all_ok (writeOk : Nat → Bool) :
    ∀ (messages : List String) (n : Nat),
      (∀ k, k < messages.length → writeOk (n + k) = true) →
      writePumpFrom messages writeOk n = messages.map Frame.text ++ [Frame.close] := by
  intro messages
  induction messages with
  | nil => intro n _; rfl
  | cons message rest ih =>
    intro n h
    have h0 : writeOk n = true := by simpa using h 0 (by simp)
    have hrest : ∀ k, k < rest.length → writeOk (n + 1 + k) = true := by
      intro k hk
      have := h (k + 1) (by simpa using Nat.succ_lt_succ hk)
      simpa [Nat.add_assoc, Nat.add_comm 1 k] using this
    simp [writePumpFrom, h0, ih (n + 1) hrest]

theorem writePumpFrom_first_failure (writeOk : Nat → Bool) :
    ∀ (messages : List String) (n j : Nat),
      j < messages.length →
      (∀ k, k < j → writeOk (n + k) = true) →
      writeOk (n + j) = false →
      writePumpFrom messages writeOk n = (messages.take (j + 1)).map Frame.text := by
  intro messages
  induction messages with
  | nil => intro n j hj; simp at hj
  | cons message rest ih =>
    intro n j hj hok hfail
    cases j with
    | zero =>
      have : writeOk n = false := by simpa using hfail
      simp [writePumpFrom, this]
    | succ j' =>
      have h0 : writeOk n = true := by simpa using hok 0 (Nat.succ_pos j')
      have hok' : ∀ k, k < j' → writeOk (n + 1 + k) = true := by
        intro k hk
        have := hok (k + 1) (Nat.succ_lt_succ hk)
        simpa [Nat.add_assoc, Nat.add_comm 1 k] using this
      have hfail' : writeOk (n + 1 + j') = false := by
        simpa [Nat.add_assoc, Nat.add_comm 1 j'] using hfail
      have hj' : j' < rest.length := by simpa using Nat.lt_of_succ_lt_succ hj
      simp [writePumpFrom, h0, ih (n + 1) j' hj' hok' hfail']

theorem count_close_map_text (messages : List String) :
    (messages.map Frame.text).count Frame.close = 0 := by
  simp [List.count_eq_zero]

theorem findSymbol_name (symbols : List Symbol) (name : String) (s : Symbol)
    (h : findSymbol symbols name = some s) : s.Name = name := by
  induction symbols with
  | nil => simp [findSymbol] at h
  | cons t rest ih =>
    by_cases ht : t.Name = name
    · simp only [findSymbol, if_pos ht, Option.some.injEq] at h
      rw [← h]; exact ht
    · exact ih (by simpa [findSymbol, ht] using h)

theorem findSymbol_updateSymbolData (symbols : List Symbol)
    (event : WsMarketStatEvent) (now : Nat) (name : String) :
    findSymbol (updateSymbolData symbols event now) name =
      if name = event.Symbol then
        (findSymbol symbols name).map (fun s =>
          ⟨s.Name, event.LastPrice, event.PriceChangePercent, event.BaseVolume, now⟩)
      else findSymbol symbols name := by
  induction symbols with
  | nil => by_cases h : name = event.Symbol <;> simp [updateSymbolData, findSymbol, h]
  | cons s rest ih =>
    by_cases hs : s.Name = event.Symbol
    · by_cases hn : name = event.Symbol
      · have hsn : s.Name = name := by rw [hs, hn]
        simp [updateSymbolData, findSymbol, hs, hn, hsn]
      · have hne : ¬ s.Name = name := fun h => hn (h ▸ hs)
        have hn2 : ¬ event.Symbol = name := fun h => hn h.symm
        simp [updateSymbolData, findSymbol, hs, hn, hne, hn2]
    · by_cases hsn : s.Name = name
      · have hn : ¬ name = event.Symbol := fun h => hs (hsn.trans h)
        simp [updateSymbolData, findSymbol, hs, hsn, hn]
      · simp [updateSymbolData, findSymbol, hs, hsn, ih]

theorem updateSymbolData_not_found (symbols : List Symbol)
    (event : WsMarketStatEvent) (now : Nat)
    (h : findSymbol symbols event.Symbol = none) :
    updateSymbolData symbols event now = symbols := by
  induction symbols with
  | nil => rfl
  | cons s rest ih =>
    by_cases hs : s.Name = event.Symbol
    · simp [findSymbol, hs] at h
    · simp [updateSymbolData, hs, ih (by simpa [findSymbol, hs] using h)]

theorem findSymbol_initSymbols (names : List String) (name : String) :
    findSymbol (initSymbols names) name =
      if name ∈ names then some ⟨name, "", "", "", 0⟩ else none := by
  induction names with
  | nil => simp [initSymbols, findSymbol]
  | cons n rest ih =>
    simp only [initSymbols, List.map_cons] at ih ⊢
    by_cases h : n = name
    · subst h
      simp [findSymbol]
    · have h' : ¬ name = n := fun hh => h hh.symm
      simp [findSymbol, h, h', ih]

theorem findSymbol_applyEvents (symbols : List Symbol)
    (events : List WsMarketStatEvent) (now : Nat) (name : String) :
    findSymbol (applyEvents symbols events now) name =
      match (events.filter (fun e => e.Symbol = name)).getLast? with
      | none => findSymbol symbols name
      | some e =>
        (findSymbol symbols name).map (fun s =>
          ⟨s.Name, e.LastPrice, e.PriceChangePercent, e.BaseVolume, now⟩) := by
  induction events using List.reverseRecOn with
  | nil => simp [applyEvents]
  | append_singleton l e' ih =>
    have happ : applyEvents symbols (l ++ [e']) now
        = updateSymbolData (applyEvents symbols l now) e' now := by
      simp [applyEvents, List.foldl_append]
    by_cases he : e'.Symbol = name
    · have hfilter : (l ++ [e']).filter (fun e => e.Symbol = name)
          = l.filter (fun e => e.Symbol = name) ++ [e'] := by
        simp [List.filter_append, he]
      rw [happ, findSymbol_updateSymbolData, if_pos he.symm, ih, hfilter,
        List.getLast?_concat]
      cases hfl : (l.filter (fun e => e.Symbol = name)).getLast? with
      | none => simp
      | some e => cases findSymbol symbols name <;> simp
    · have hfilter : (l ++ [e']).filter (fun e => e.Symbol = name)
          = l.filter (fun e => e.Symbol = name) := by
        simp [List.filter_append, he]
      have hne : ¬ name = e'.Symbol := fun h => he h.symm
      rw [happ, findSymbol_updateSymbolData, if_neg hne, ih, hfilter]

end ws

/-- Claim C5: the Hub's register operation is idempotent with respect to
registry membership — registering an already-registered sink leaves the
membership count unchanged, and registering twice in succession yields the
same registry as registering once. -/
theorem register_idempotent_membership (clients : Finset Nat) (c : Nat) :
    (c ∈ clients →
      ws.GetClientCount (ws.registerClient clients c) = ws.GetClientCount clients)
    ∧ ws.registerClient (ws.registerClient clients c) c = ws.registerClient clients c := by
  constructor
  · intro h
    simp [ws.registerClient, ws.GetClientCount, Finset.insert_eq_self.mpr h]
  · simp [ws.registerClient, Finset.insert_idem]

/-- Witness for C5 at the concrete registry `{1, 2}` and sink `1`. -/
theorem register_idempotent_membership_witness :
    ws.GetClientCount (ws.registerClient {1, 2} 1) = ws.GetClientCount ({1, 2} : Finset Nat)
    ∧ ws.registerClient (ws.registerClient {1, 2} 1) 1 = ws.registerClient {1, 2} 1 :=
  ⟨(register_idempotent_membership {1, 2} 1).1 (by decide),
   (register_idempotent_membership {1, 2} 1).2⟩

/-- Claim C1: the fan-out pass never blocks and never mutates the registry:
every registered client survives the pass in its original position (same id
sequence), a client with queue room receives exactly the broadcast message
appended to its queue, a client with a full queue is left exactly as it was,
and the ids scheduled for asynchronous unregistration are exactly those of the
full-queue clients. -/
theorem broadcast_never_blocks_registry_unchanged
    (clients : List ws.Client) (message : String) :
    (ws.broadcastMessage clients message).1.map ws.Client.id = clients.map ws.Client.id
    ∧ (ws.broadcastMessage clients message).1 =
        clients.map (fun c =>
          if c.Send.length < c.cap then { c with Send := c.Send ++ [message] } else c)
    ∧ (ws.broadcastMessage clients message).2 =
        (clients.filter (fun c => !(c.Send.length < c.cap))).map ws.Client.id := by
  rw [ws.broadcastMessage_eq]
  refine ⟨?_, rfl, rfl⟩
  simp only [List.map_map]
  apply List.map_congr_left
  intro c _
  by_cases h : c.Send.length < c.cap <;> simp [h]

/-- Claim C2: inserting a price update into the pending batch replaces the
entry with the same symbol in place (same length, all other positions
untouched) when one is present and appends at the end otherwise; symbol
uniqueness within the batch is preserved, and queueing values `v1` then `v2`
for the same symbol leaves exactly one entry for that symbol, holding `v2`. -/
theorem batch_coalescing_last_writer_wins :
    (∀ (data : List ws.PriceUpdate) (p : ws.PriceUpdate),
      p.Symbol ∈ data.map ws.PriceUpdate.Symbol →
        ∃ i, ∃ hi : i < data.length, (data.get ⟨i, hi⟩).Symbol = p.Symbol
          ∧ ws.updateOrAppendPrice data p = data.set i p)
    ∧ (∀ (data : List ws.PriceUpdate) (p : ws.PriceUpdate),
      p.Symbol ∉ data.map ws.PriceUpdate.Symbol →
        ws.updateOrAppendPrice data p = data ++ [p])
    ∧ (∀ (data : List ws.PriceUpdate) (p : ws.PriceUpdate),
      (data.map ws.PriceUpdate.Symbol).Nodup →
        ((ws.updateOrAppendPrice data p).map ws.PriceUpdate.Symbol).Nodup)
    ∧ (∀ (pending : Option ws.MultiUpdate) (v1 v2 : ws.PriceUpdate),
      (∀ m, pending = some m → (m.Data.map ws.PriceUpdate.Symbol).Nodup) →
      v1.Symbol = v2.Symbol →
        (ws.queuePriceUpdate (some (ws.queuePriceUpdate pending v1)) v2).Data.filter
          (fun q => q.Symbol = v2.Symbol) = [v2]) := by
  refine ⟨ws.updateOrAppendPrice_of_mem, ws.updateOrAppendPrice_of_not_mem,
    ws.updateOrAppendPrice_nodup, ?_⟩
  intro pending v1 v2 hnd hsym
  cases pending with
  | none =>
    simp only [ws.queuePriceUpdate]
    exact ws.updateOrAppendPrice_filter [v1] v2 (by simp)
  | some m =>
    simp only [ws.queuePriceUpdate]
    exact ws.updateOrAppendPrice_filter (ws.updateOrAppendPrice m.Data v1) v2
      (ws.updateOrAppendPrice_nodup m.Data v1 (hnd m rfl))

/-- Witness for C2: queueing two updates for symbol `S` into an initially
absent batch leaves exactly one entry for `S`, holding the second value. -/
theorem batch_coalescing_last_writer_wins_witness :
    (ws.queuePriceUpdate
        (some (ws.queuePriceUpdate none ⟨"S", 1, 0, 0, 0, "t1"⟩)) ⟨"S", 2, 0, 0, 0, "t2"⟩).Data.filter
      (fun q => q.Symbol = ws.PriceUpdate.Symbol ⟨"S", 2, 0, 0, 0, "t2"⟩)
      = [⟨"S", 2, 0, 0, 0, "t2"⟩] :=
  batch_coalescing_last_writer_wins.2.2.2 none ⟨"S", 1, 0, 0, 0, "t1"⟩ ⟨"S", 2, 0, 0, 0, "t2"⟩
    (fun m hm => by simp at hm) rfl

/-- Counterexample to Claim C3 as stated: with a one-entry pending batch and a
serializer that fails on it, one execution of the flush-cycle body leaves the
pending batch exactly as it was — it is not reset to empty. -/
theorem flush_marshal_failure_keeps_batch_counterexample :
    (ws.broadcastPendingUpdates
        (some ⟨"multi_update", [⟨"BTCUSDT", 1, 0, 0, 0, "t"⟩]⟩)
        (fun _ => none) [] 256).1
      = some ⟨"multi_update", [⟨"BTCUSDT", 1, 0, 0, 0, "t"⟩]⟩
    ∧ (some (⟨"multi_update", [⟨"BTCUSDT", 1, 0, 0, 0, "t"⟩]⟩ : ws.MultiUpdate)
        ≠ (none : Option ws.MultiUpdate)) := by
  exact ⟨rfl, by simp⟩

/-- Claim C3 (amended): for a non-empty pending batch, one execution of the
flush-cycle body resets the batch to empty exactly when serialization
succeeds — both when the hand-off to the Hub is accepted and when it would
block and the payload is dropped; when serialization fails the cycle is
skipped and the pending batch is left unchanged (not reset). -/
theorem flush_resets_batch_iff_marshal_succeeds (m : ws.MultiUpdate)
    (marshal : ws.MultiUpdate → Option String) (queue : List String) (cap : Nat)
    (hne : m.Data ≠ []) :
    (∀ jsonData, marshal m = some jsonData →
      ws.broadcastPendingUpdates (some m) marshal queue cap
        = (none, ws.sendToHub queue cap jsonData))
    ∧ (marshal m = none →
      ws.broadcastPendingUpdates (some m) marshal queue cap = (some m, queue))
    ∧ (∀ jsonData, queue.length < cap →
      ws.sendToHub queue cap jsonData = queue ++ [jsonData])
    ∧ (∀ jsonData, ¬ queue.length < cap →
      ws.sendToHub queue cap jsonData = queue) := by
  have hlen : ¬ m.Data.length = 0 := by
    simpa [List.length_eq_zero] using hne
  refine ⟨?_, ?_, ?_, ?_⟩
  · intro jsonData hj
    simp [ws.broadcastPendingUpdates, hlen, hj]
  · intro hj
    simp [ws.broadcastPendingUpdates, hlen, hj]
  · intro jsonData hq
    simp [ws.sendToHub, hq]
  · intro jsonData hq
    simp [ws.sendToHub, hq]

/-- Witness for amended C3 at a concrete one-entry batch: a succeeding
serializer resets the batch and enqueues the payload; a failing one leaves
the batch in place. -/
theorem flush_resets_batch_iff_marshal_succeeds_witness :
    ws.broadcastPendingUpdates (some ⟨"multi_update", [⟨"S", 1, 0, 0, 0, "t"⟩]⟩)
        (fun _ => some "payload") [] 256
      = (none, ws.sendToHub [] 256 "payload")
    ∧ ws.broadcastPendingUpdates (some ⟨"multi_update", [⟨"S", 1, 0, 0, 0, "t"⟩]⟩)
        (fun _ => none) ["stuck"] 1
      = (some ⟨"multi_update", [⟨"S", 1, 0, 0, 0, "t"⟩]⟩, ["stuck"]) :=
  ⟨(flush_resets_batch_iff_marshal_succeeds ⟨"multi_update", [⟨"S", 1, 0, 0, 0, "t"⟩]⟩
      (fun _ => some "payload") [] 256 (by simp)).1 "payload" rfl,
   (flush_resets_batch_iff_marshal_succeeds ⟨"multi_update", [⟨"S", 1, 0, 0, 0, "t"⟩]⟩
      (fun _ => none) ["stuck"] 1 (by simp)).2.1 rfl⟩

/-- Claim C4 (code bug): on an ingestor whose `start()` has opened one
upstream connection handle, the first `Stop` succeeds (cancellation raised,
handle closed), but a second `Stop` executes `close` on the already-closed
handle and panics — it does not treat the double close as a no-op; with no
handles ever opened, repeated `Stop` calls all succeed and keep the
cancellation flag raised. -/
theorem stop_second_call_panics_after_connect :
    ws.Stop ⟨false, [⟨false⟩]⟩ = Except.ok ⟨true, [⟨true⟩]⟩
    ∧ ws.Stop ⟨true, [⟨true⟩]⟩ = Except.error "close of closed channel"
    ∧ ws.Stop ⟨false, []⟩ = Except.ok ⟨true, []⟩
    ∧ ws.Stop ⟨true, []⟩ = Except.ok ⟨true, []⟩ := by
  refine ⟨rfl, rfl, rfl, rfl⟩

/-- Claim C6: when the sink's queue is closed the writer emits its queued data
frames followed by exactly one close frame and exits (the close frame is the
final frame, and only one close frame ever appears); when the `j`-th data
write fails the writer's trace stops right there — the frames attempted are
exactly the first `j + 1` data frames, with no further data frame and no
close frame. -/
theorem write_pump_single_close_and_fail_fast :
    (∀ (messages : List String) (writeOk : Nat → Bool),
      (∀ k, k < messages.length → writeOk k = true) →
        ws.WritePump messages writeOk
          = messages.map ws.Frame.text ++ [ws.Frame.close]
        ∧ (messages.map ws.Frame.text ++ [ws.Frame.close]).count ws.Frame.close = 1)
    ∧ (∀ (messages : List String) (writeOk : Nat → Bool) (j : Nat),
      j < messages.length →
      (∀ k, k < j → writeOk k = true) →
      writeOk j = false →
        ws.WritePump messages writeOk = (messages.take (j + 1)).map ws.Frame.text
        ∧ ((messages.take (j + 1)).map ws.Frame.text).count ws.Frame.close = 0) := by
  constructor
  · intro messages writeOk h
    refine ⟨ws.writePumpFrom_all_ok writeOk messages 0 (by simpa using h), ?_⟩
    simp [List.count_append, ws.count_close_map_text]
  · intro messages writeOk j hj hok hfail
    refine ⟨ws.writePumpFrom_first_failure writeOk messages 0 j hj
      (by simpa using hok) (by simpa using hfail), ?_⟩
    exact ws.count_close_map_text _

/-- Witness for C6: with two queued messages, an always-succeeding connection
yields both data frames then one close frame; a connection whose second write
fails yields exactly the two attempted data frames and no close frame. -/
theorem write_pump_single_close_and_fail_fast_witness :
    ws.WritePump ["a", "b"] (fun _ => true)
      = [ws.Frame.text "a", ws.Frame.text "b", ws.Frame.close]
    ∧ ws.WritePump ["a", "b"] (fun k => k == 0) = [ws.Frame.text "a", ws.Frame.text "b"] := by
  refine ⟨(write_pump_single_close_and_fail_fast.1 ["a", "b"] (fun _ => true)
    (fun k _ => rfl)).1, ?_⟩
  have h := (write_pump_single_close_and_fail_fast.2 ["a", "b"] (fun k => k == 0) 1
    (by decide) (fun k hk => by simp [Nat.lt_one_iff.mp hk]) rfl).1
  simpa using h

/-- Claim C7: starting from the fresh watch-list and running any sequence of
upstream events (each carrying a non-empty price string), the price lookup
returns the price of the last event for the symbol exactly when the symbol is
watched and has received at least one event, fails `noDataYet` when it is
watched but silent, and fails `notFound` when it is not watched — the result
type has no other outcome. -/
theorem current_price_three_outcomes (names : List String)
    (events : List ws.WsMarketStatEvent) (now : Nat) (name : String)
    (hne : ∀ e ∈ events, e.Symbol = name → e.LastPrice ≠ "") :
    (name ∉ names →
      ws.GetCurrentPrice (ws.applyEvents (ws.initSymbols names) events now) name
        = ws.PriceResult.notFound name)
    ∧ (name ∈ names → events.filter (fun e => e.Symbol = name) = [] →
      ws.GetCurrentPrice (ws.applyEvents (ws.initSymbols names) events now) name
        = ws.PriceResult.noDataYet name)
    ∧ (name ∈ names → ∀ e, (events.filter (fun e => e.Symbol = name)).getLast? = some e →
      ws.GetCurrentPrice (ws.applyEvents (ws.initSymbols names) events now) name
        = ws.PriceResult.price e.LastPrice) := by
  have hfind := ws.findSymbol_applyEvents (ws.initSymbols names) events now name
  refine ⟨?_, ?_, ?_⟩
  · intro hmem
    have h0 : ws.findSymbol (ws.initSymbols names) name = none := by
      rw [ws.findSymbol_initSymbols]; exact if_neg hmem
    have hfinal : ws.findSymbol (ws.applyEvents (ws.initSymbols names) events now) name
        = none := by
      rw [hfind]
      cases (events.filter (fun e => e.Symbol = name)).getLast? <;> simp [h0]
    simp [ws.GetCurrentPrice, hfinal]
  · intro hmem hfil
    have h0 : ws.findSymbol (ws.initSymbols names) name = some ⟨name, "", "", "", 0⟩ := by
      rw [ws.findSymbol_initSymbols]; exact if_pos hmem
    have hfinal : ws.findSymbol (ws.applyEvents (ws.initSymbols names) events now) name
        = some ⟨name, "", "", "", 0⟩ := by
      rw [hfind, hfil]
      simpa using h0
    simp [ws.GetCurrentPrice, hfinal]
  · intro hmem e hl
    have h0 : ws.findSymbol (ws.initSymbols names) name = some ⟨name, "", "", "", 0⟩ := by
      rw [ws.findSymbol_initSymbols]; exact if_pos hmem
    have hfinal : ws.findSymbol (ws.applyEvents (ws.initSymbols names) events now) name
        = some ⟨name, e.LastPrice, e.PriceChangePercent, e.BaseVolume, now⟩ := by
      rw [hfind, hl]
      simp [h0]
    have hmem_e : e ∈ events.filter (fun e => e.Symbol = name) :=
      List.mem_of_mem_getLast? hl
    have he : e ∈ events ∧ e.Symbol = name := by
      have := List.mem_filter.mp hmem_e
      exact ⟨this.1, by simpa using this.2⟩
    have hep : e.LastPrice ≠ "" := hne e he.1 he.2
    simp [ws.GetCurrentPrice, hfinal, hep]

/-- Witness for C7: with watch-list `["A", "B"]` and two events for `A`, the
lookup of `A` yields the second event's price. -/
theorem current_price_three_outcomes_witness :
    ws.GetCurrentPrice
      (ws.applyEvents (ws.initSymbols ["A", "B"])
        [⟨"A", "1", "c", "p", "v"⟩, ⟨"A", "2", "c", "p", "v"⟩] 7) "A"
      = ws.PriceResult.price "2" :=
  (current_price_three_outcomes ["A", "B"]
      [⟨"A", "1", "c", "p", "v"⟩, ⟨"A", "2", "c", "p", "v"⟩] 7 "A"
      (by decide)).2.2 (by decide) ⟨"A", "2", "c", "p", "v"⟩ (by decide)

/-- Claim C8: conversion of an upstream event never fails: the symbol and the
formatted timestamp are carried over, each of the four string-encoded numeric
fields independently defaults to zero exactly when its own parse fails and
takes the parsed value when it succeeds, and the volume is the parsed base
volume truncated toward zero to an integer. -/
theorem convert_event_total_field_defaults (parseFloat : String → Option Rat)
    (now : String) (event : ws.WsMarketStatEvent) :
    (ws.convertEventToPriceUpdate parseFloat now event).Symbol = event.Symbol
    ∧ (ws.convertEventToPriceUpdate parseFloat now event).Timestamp = now
    ∧ (parseFloat event.LastPrice = none →
        (ws.convertEventToPriceUpdate parseFloat now event).Price = 0)
    ∧ (∀ v, parseFloat event.LastPrice = some v →
        (ws.convertEventToPriceUpdate parseFloat now event).Price = v)
    ∧ (parseFloat event.PriceChange = none →
        (ws.convertEventToPriceUpdate parseFloat now event).Change = 0)
    ∧ (∀ v, parseFloat event.PriceChange = some v →
        (ws.convertEventToPriceUpdate parseFloat now event).Change = v)
    ∧ (parseFloat event.PriceChangePercent = none →
        (ws.convertEventToPriceUpdate parseFloat now event).ChangePercent = 0)
    ∧ (∀ v, parseFloat event.PriceChangePercent = some v →
        (ws.convertEventToPriceUpdate parseFloat now event).ChangePercent = v)
    ∧ (parseFloat event.BaseVolume = none →
        (ws.convertEventToPriceUpdate parseFloat now event).Volume = 0)
    ∧ (∀ v, parseFloat event.BaseVolume = some v →
        (ws.convertEventToPriceUpdate parseFloat now event).Volume = ws.ratTrunc v) := by
  refine ⟨rfl, rfl, ?_, ?_, ?_, ?_, ?_, ?_, ?_, ?_⟩
  · intro h; simp [ws.convertEventToPriceUpdate, h]
  · intro v h; simp [ws.convertEventToPriceUpdate, h]
  · intro h; simp [ws.convertEventToPriceUpdate, h]
  · intro v h; simp [ws.convertEventToPriceUpdate, h]
  · intro h; simp [ws.convertEventToPriceUpdate, h]
  · intro v h; simp [ws.convertEventToPriceUpdate, h]
  · intro h; simp [ws.convertEventToPriceUpdate, h, ws.ratTrunc]
  · intro v h; simp [ws.convertEventToPriceUpdate, h]

/-- Witness for C8 at a concrete event and parse oracle: the unparsable
price-change field alone defaults to zero while the parsable price and volume
fields take the parsed value, the volume truncated. -/
theorem convert_event_total_field_defaults_witness :
    (ws.convertEventToPriceUpdate ws.parseProbe "ts" ws.eventProbe).Change = 0
    ∧ (ws.convertEventToPriceUpdate ws.parseProbe "ts" ws.eventProbe).Price = 5 / 2
    ∧ (ws.convertEventToPriceUpdate ws.parseProbe "ts" ws.eventProbe).Volume
        = ws.ratTrunc (5 / 2) := by
  obtain ⟨h1, h2, h3, h4, h5, h6, h7, h8, h9, h10⟩ :=
    convert_event_total_field_defaults ws.parseProbe "ts" ws.eventProbe
  exact ⟨h5 rfl, h4 (5 / 2) rfl, h10 (5 / 2) rfl⟩

/-- Counterexample to Claim C9 as stated: the event's absolute price change
(`"100"`) is stored nowhere in the updated cache entry — the entry's change
field receives the percent change (`"0.2"`) instead. -/
theorem update_symbol_absolute_change_missing_counterexample :
    ws.updateSymbolData [⟨"A", "", "", "", 0⟩] ⟨"A", "50", "100", "0.2", "7"⟩ 5
      = [⟨"A", "50", "0.2", "7", 5⟩]
    ∧ ws.Symbol.LastChange ⟨"A", "50", "0.2", "7", 5⟩
        ≠ ws.WsMarketStatEvent.PriceChange ⟨"A", "50", "100", "0.2", "7"⟩
    ∧ "100" ∉ (["A", "50", "0.2", "7"] : List String) := by
  refine ⟨by decide, by decide, by decide⟩

/-- Claim C9 (amended): for every event whose symbol is in the watch-list,
the handler overwrites the first matching cache entry with the event's price
string, its percent change (stored in the entry's change field — the absolute
change is not cached), and its base volume, and stamps it with the current
time; lookups of every other name are unaffected. -/
theorem update_symbol_stores_event_fields (symbols : List ws.Symbol)
    (event : ws.WsMarketStatEvent) (now : Nat)
    (h : (ws.findSymbol symbols event.Symbol).isSome = true) :
    ws.findSymbol (ws.updateSymbolData symbols event now) event.Symbol
      = some ⟨event.Symbol, event.LastPrice, event.PriceChangePercent,
              event.BaseVolume, now⟩
    ∧ ∀ n, n ≠ event.Symbol →
        ws.findSymbol (ws.updateSymbolData symbols event now) n
          = ws.findSymbol symbols n := by
  constructor
  · obtain ⟨s, hs⟩ := Option.isSome_iff_exists.mp h
    rw [ws.findSymbol_updateSymbolData, if_pos rfl, hs]
    simp [ws.findSymbol_name symbols event.Symbol s hs]
  · intro n hn
    rw [ws.findSymbol_updateSymbolData, if_neg hn]

/-- Witness for amended C9 on a two-entry watch-list: the entry for `A` is
overwritten with price, percent change and volume, and the lookup of `B` is
unchanged. -/
theorem update_symbol_stores_event_fields_witness :
    ws.findSymbol (ws.updateSymbolData [⟨"A", "", "", "", 0⟩, ⟨"B", "", "", "", 0⟩]
        ⟨"A", "50", "100", "0.2", "7"⟩ 5) "A"
      = some ⟨"A", "50", "0.2", "7", 5⟩
    ∧ ws.findSymbol (ws.updateSymbolData [⟨"A", "", "", "", 0⟩, ⟨"B", "", "", "", 0⟩]
        ⟨"A", "50", "100", "0.2", "7"⟩ 5) "B"
      = ws.findSymbol [⟨"A", "", "", "", 0⟩, ⟨"B", "", "", "", 0⟩] "B" :=
  ⟨(update_symbol_stores_event_fields [⟨"A", "", "", "", 0⟩, ⟨"B", "", "", "", 0⟩]
      ⟨"A", "50", "100", "0.2", "7"⟩ 5 (by decide)).1,
   (update_symbol_stores_event_fields [⟨"A", "", "", "", 0⟩, ⟨"B", "", "", "", 0⟩]
      ⟨"A", "50", "100", "0.2", "7"⟩ 5 (by decide)).2 "B" (by decide)⟩

/-- Claim C10: for an event whose symbol is not in the watch-list, the
symbol-cache update is a no-op — the watch-list comes back identical, so no
entry is created and no existing entry changes. -/
theorem update_unknown_symbol_noop (symbols : List ws.Symbol)
    (event : ws.WsMarketStatEvent) (now : Nat)
    (h : ws.findSymbol symbols event.Symbol = none) :
    ws.updateSymbolData symbols event now = symbols :=
  ws.updateSymbolData_not_found symbols event now h

/-- Witness for C10: an event for the unwatched symbol `Z` leaves the
one-entry watch-list for `A` untouched. -/
theorem update_unknown_symbol_noop_witness :
    ws.updateSymbolData [⟨"A", "", "", "", 0⟩] ⟨"Z", "50", "1", "2", "3"⟩ 5
      = [⟨"A", "", "", "", 0⟩] :=
  update_unknown_symbol_noop [⟨"A", "", "", "", 0⟩] ⟨"Z", "50", "1", "2", "3"⟩ 5 (by decide)
